import Mathlib

/-!
Verification of the dual-rate spectral fire-alarm detector.

This file gives a shallow embedding of the detection core of
`src/Final_code.ino` and proves the specification claims about it.
Floating-point (`float`/`double`) values are modelled as exact real
numbers (`ℝ`) where transcendental functions appear, and generically
over a `LinearOrderedField` for the purely rational parts (filters,
voting detector) so that those parts stay executable at `ℚ`.
The external spectral transform (`arduinoFFT`) and the hardware read
are treated as parameters/inputs, exactly as the spec scopes them.
-/

namespace FireAlarm

/-! ## Constants (from the `#define`s and `const`s of the sketch) -/

def SAMPLES : ℕ := 1024

def LONG_SAMPLES : ℕ := 4096

def BLOCK_SIZE : ℕ := SAMPLES

noncomputable def SAMPLE_RATE : ℝ := 22627

/-! ## PeakEstimator: `majorPeakParabolaDbWithMag` -/

/-- Magnitude of bin `i` of a spectral frame: `sqrt(re²+im²)`, as computed
inside the scan loop of `majorPeakParabolaDbWithMag`. -/
noncomputable def magAt (re im : ℕ → ℝ) (i : ℕ) : ℝ :=
  Real.sqrt (re i * re i + im i * im i)

/-- One iteration of the max-magnitude scan loop: update the running
`(maxY, IndexOfMaxY)` pair when the current bin's magnitude is strictly
larger. -/
noncomputable def scanStep (re im : ℕ → ℝ) (acc : ℝ × ℕ) (i : ℕ) : ℝ × ℕ :=
  if magAt re im i > acc.1 then (magAt re im i, i) else acc

/-- The scan loop of `majorPeakParabolaDbWithMag`: starting from
`maxY = 0, IndexOfMaxY = 0`, visit bins `1 .. half-2` (the C loop
`for (i = 1; i < half - 1; i++)`). -/
noncomputable def scanMax (re im : ℕ → ℝ) (half : ℕ) : ℝ × ℕ :=
  (List.range' 1 (half - 2)).foldl (scanStep re im) (0, 0)

/-- Embedding of `majorPeakParabolaDbWithMag` from `src/Final_code.ino`:
returns the pair (frequency, peak magnitude).  The out-parameter
`*outPeakMag` is the second component. -/
noncomputable def majorPeakParabolaDbWithMag (re im : ℕ → ℝ) (n : ℕ) (fs : ℝ) : ℝ × ℝ :=
  let half := n / 2
  let p := scanMax re im half
  if p.2 < 1 ∨ half - 1 ≤ p.2 then
    ((p.2 : ℝ) * fs / (n : ℝ), p.1)
  else
    let m1 := magAt re im (p.2 - 1)
    let m2 := magAt re im (p.2 + 1)
    if m1 ≤ 0 ∨ p.1 ≤ 0 ∨ m2 ≤ 0 then
      ((p.2 : ℝ) * fs / (n : ℝ), p.1)
    else
      let db1 := Real.logb 10 m1
      let db := Real.logb 10 p.1
      let db2 := Real.logb 10 m2
      let denom := 2 * (db1 + db2 - 2 * db)
      let delta := if 1e-12 < |denom| then (db1 - db2) / denom else 0
      (((p.2 : ℝ) + delta) * fs / (n : ℝ),
        (10 : ℝ) ^ (db + (db1 - db2) * delta / 2))

/-! ### Scan-loop lemmas -/

theorem magAt_nonneg (re im : ℕ → ℝ) (i : ℕ) : 0 ≤ magAt re im i :=
  Real.sqrt_nonneg _

theorem magAt_of_im_zero (re im : ℕ → ℝ) (i : ℕ) (h0 : im i = 0)
    (h1 : 0 ≤ re i) : magAt re im i = re i := by
  rw [magAt, h0, mul_zero, add_zero, Real.sqrt_mul_self h1]

theorem scan_foldl_spec (re im : ℕ → ℝ) :
    ∀ (l : List ℕ) (acc : ℝ × ℕ), 0 ≤ acc.1 →
      l.foldl (scanStep re im) acc = acc ∨
      ∃ i ∈ l, l.foldl (scanStep re im) acc = (magAt re im i, i) ∧
        0 < magAt re im i := by
  intro l
  induction l with
  | nil => intro acc _; exact Or.inl rfl
  | cons j t ih =>
    intro acc hacc
    simp only [List.foldl_cons]
    by_cases hj : magAt re im j > acc.1
    · have h1 : scanStep re im acc j = (magAt re im j, j) := by
        simp [scanStep, hj]
      rw [h1]
      rcases ih (magAt re im j, j) (magAt_nonneg re im j) with h | ⟨i, hi, hres, hpos⟩
      · exact Or.inr ⟨j, List.mem_cons_self _ _, h, lt_of_le_of_lt hacc hj⟩
      · exact Or.inr ⟨i, List.mem_cons_of_mem _ hi, hres, hpos⟩
    · have h1 : scanStep re im acc j = acc := by simp [scanStep, hj]
      rw [h1]
      rcases ih acc hacc with h | ⟨i, hi, hres, hpos⟩
      · exact Or.inl h
      · exact Or.inr ⟨i, List.mem_cons_of_mem _ hi, hres, hpos⟩

theorem scanMax_spec (re im : ℕ → ℝ) (half : ℕ) :
    scanMax re im half = (0, 0) ∨
    ((scanMax re im half).1 = magAt re im (scanMax re im half).2 ∧
      0 < (scanMax re im half).1 ∧
      1 ≤ (scanMax re im half).2 ∧ (scanMax re im half).2 < half - 1) := by
  rcases scan_foldl_spec re im (List.range' 1 (half - 2)) (0, 0) le_rfl with
    h | ⟨i, hi, hres, hpos⟩
  · exact Or.inl h
  · right
    rw [List.mem_range'] at hi
    obtain ⟨k, hk, rfl⟩ := hi
    rw [scanMax, hres]
    refine ⟨rfl, hpos, Nat.le_add_right _ _, ?_⟩
    omega

theorem logb_ten : Real.logb 10 10 = 1 :=
  Real.logb_self_eq_one (by norm_num)

theorem logb_hundred : Real.logb 10 100 = 2 := by
  rw [show (100 : ℝ) = 10 ^ (2 : ℕ) by norm_num, Real.logb_pow, logb_ten]
  norm_num

/-- Concrete 8-sample frame (real parts) whose maximum-magnitude bin over
the scan range `1..2` is the lowest permitted index 1, with positive
neighbors of unequal magnitude (bins 0,1,2 have magnitudes 1, 100, 10). -/
noncomputable def cexRe : ℕ → ℝ :=
  fun i => if i = 0 then 1 else if i = 1 then 100 else if i = 2 then 10 else 0

/-- Imaginary parts of the concrete 8-sample frame: all zero. -/
noncomputable def cexIm : ℕ → ℝ := fun _ => 0

theorem cex_mag0 : magAt cexRe cexIm 0 = 1 := by
  rw [magAt_of_im_zero _ _ _ rfl (by norm_num [cexRe])]
  norm_num [cexRe]

theorem cex_mag1 : magAt cexRe cexIm 1 = 100 := by
  rw [magAt_of_im_zero _ _ _ rfl (by norm_num [cexRe])]
  norm_num [cexRe]

theorem cex_mag2 : magAt cexRe cexIm 2 = 10 := by
  rw [magAt_of_im_zero _ _ _ rfl (by norm_num [cexRe])]
  norm_num [cexRe]

theorem cex_scan : scanMax cexRe cexIm 4 = (100, 1) := by
  have hr : List.range' 1 (4 - 2) = [1, 2] := rfl
  have s1 : scanStep cexRe cexIm (0, 0) 1 = (100, 1) := by
    rw [scanStep, cex_mag1]
    norm_num
  have s2 : scanStep cexRe cexIm (100, 1) 2 = (100, 1) := by
    rw [scanStep, cex_mag2]
    norm_num
  rw [scanMax, hr, List.foldl_cons, s1, List.foldl_cons, s2, List.foldl_nil]

theorem cex_eval :
    majorPeakParabolaDbWithMag cexRe cexIm 8 8 =
      (7 / 6, (10 : ℝ) ^ ((23 : ℝ) / 12)) := by
  simp only [majorPeakParabolaDbWithMag, show (8 : ℕ) / 2 = 4 from rfl, cex_scan,
    show (1 : ℕ) - 1 = 0 from rfl, show (1 : ℕ) + 1 = 2 from rfl,
    cex_mag0, cex_mag2, Real.logb_one, logb_hundred, logb_ten]
  rw [if_neg (by norm_num), if_neg (by norm_num), if_pos (by norm_num)]
  norm_num

/-- When the scan finds no bin with positive magnitude the index stays 0
and the early no-interpolation return fires, yielding frequency 0 (the
DC bin center) and the scanned maximum magnitude; otherwise the scanned
index lies in `1 .. half-2` and the early return cannot fire. -/
theorem majorPeak_guard_only_at_zero (re im : ℕ → ℝ) (n : ℕ) (fs : ℝ) :
    ((scanMax re im (n / 2)).2 = 0 ∨
      (1 ≤ (scanMax re im (n / 2)).2 ∧
        (scanMax re im (n / 2)).2 ≤ n / 2 - 2)) ∧
    ((scanMax re im (n / 2)).2 = 0 →
      majorPeakParabolaDbWithMag re im n fs = (0, (scanMax re im (n / 2)).1)) := by
  constructor
  · rcases scanMax_spec re im (n / 2) with h | ⟨_, _, h1, h2⟩
    · left
      rw [h]
    · right
      exact ⟨h1, by omega⟩
  · intro h0
    rw [majorPeakParabolaDbWithMag, if_pos (Or.inl (by rw [h0]; norm_num))]
    rw [h0]
    norm_num

/-- Interior symmetric peak: if the scanned maximum index is interior and
its two neighbors have equal positive magnitudes, the parabolic delta is 0
and the estimate is the exact bin center with the center bin's magnitude. -/
theorem majorPeak_symmetric (re im : ℕ → ℝ) (n : ℕ) (fs : ℝ)
    (h1 : 1 ≤ (scanMax re im (n / 2)).2)
    (h2 : (scanMax re im (n / 2)).2 < n / 2 - 1)
    (heq : magAt re im ((scanMax re im (n / 2)).2 - 1) =
      magAt re im ((scanMax re im (n / 2)).2 + 1))
    (hpos : 0 < magAt re im ((scanMax re im (n / 2)).2 - 1)) :
    majorPeakParabolaDbWithMag re im n fs =
      (((scanMax re im (n / 2)).2 : ℝ) * fs / (n : ℝ),
        magAt re im (scanMax re im (n / 2)).2) := by
  rcases scanMax_spec re im (n / 2) with h | ⟨hm, hp1, _, _⟩
  · rw [h] at h1
    exact absurd h1 (by norm_num)
  · rw [majorPeakParabolaDbWithMag, if_neg (by omega)]
    rw [if_neg (by push_neg; exact ⟨not_le.mp (not_le.mpr hpos),
      not_le.mp (not_le.mpr hp1), not_le.mp (not_le.mpr (heq ▸ hpos))⟩)]
    rw [heq]
    simp only [sub_self, zero_div, ite_self, zero_mul, add_zero]
    rw [Real.rpow_logb (by norm_num) (by norm_num) hp1, hm]

theorem scan_skip (re im : ℕ → ℝ) :
    ∀ (l : List ℕ) (acc : ℝ × ℕ), (∀ i ∈ l, magAt re im i ≤ acc.1) →
      l.foldl (scanStep re im) acc = acc := by
  intro l
  induction l with
  | nil => intro acc _; rfl
  | cons j t ih =>
    intro acc h
    rw [List.foldl_cons]
    have hj : scanStep re im acc j = acc := by
      rw [scanStep, if_neg (not_lt.mpr (h j (List.mem_cons_self _ _)))]
    rw [hj]
    exact ih acc fun i hi => h i (List.mem_cons_of_mem _ hi)

/-- All-zero spectral frame (used as the degenerate no-positive-bin input). -/
noncomputable def zeroFrame : ℕ → ℝ := fun _ => 0

theorem zeroFrame_mag (i : ℕ) : magAt zeroFrame zeroFrame i = 0 := by
  rw [magAt_of_im_zero _ _ _ rfl le_rfl]
  rfl

theorem zeroFrame_scan (half : ℕ) : scanMax zeroFrame zeroFrame half = (0, 0) := by
  rw [scanMax]
  exact scan_skip _ _ _ _ fun i _ => le_of_eq (zeroFrame_mag i)

/-- Real parts of a 1024-sample frame with a symmetric interior peak:
magnitude 10 at bin 140 and equal magnitudes 1 at bins 139 and 141. -/
noncomputable def symRe : ℕ → ℝ :=
  fun i => if i = 139 then 1 else if i = 140 then 10 else if i = 141 then 1 else 0

/-- Imaginary parts of the symmetric-peak frame: all zero. -/
noncomputable def symIm : ℕ → ℝ := fun _ => 0

theorem symRe_nonneg (i : ℕ) : 0 ≤ symRe i := by
  rw [symRe]
  split <;> norm_num
  split <;> norm_num
  split <;> norm_num

theorem sym_mag (i : ℕ) : magAt symRe symIm i = symRe i :=
  magAt_of_im_zero _ _ _ rfl (symRe_nonneg i)

theorem sym_mag_other (i : ℕ) (h139 : i ≠ 139) (h140 : i ≠ 140) (h141 : i ≠ 141) :
    magAt symRe symIm i = 0 := by
  rw [sym_mag, symRe, if_neg h139, if_neg h140, if_neg h141]

theorem sym_scan : scanMax symRe symIm 512 = (10, 140) := by
  have hsplit1 : List.range' 1 510 = List.range' 1 138 ++ List.range' 139 372 := by
    rw [List.range'_append 1 138 372 1]
  have hsplit2 : List.range' 139 372 = [139, 140, 141] ++ List.range' 142 369 := by
    rw [show [139, 140, 141] = List.range' 139 3 from rfl,
      List.range'_append 139 3 369 1]
  rw [scanMax, show (512 : ℕ) - 2 = 510 from rfl, hsplit1, List.foldl_append,
    hsplit2, List.foldl_append]
  have h1 : List.foldl (scanStep symRe symIm) (0, 0) (List.range' 1 138) = (0, 0) := by
    apply scan_skip
    intro i hi
    rw [List.mem_range'] at hi
    obtain ⟨k, hk, rfl⟩ := hi
    rw [sym_mag_other _ (by omega) (by omega) (by omega)]
  rw [h1]
  have h139 : magAt symRe symIm 139 = 1 := by rw [sym_mag]; norm_num [symRe]
  have h140 : magAt symRe symIm 140 = 10 := by rw [sym_mag]; norm_num [symRe]
  have h141 : magAt symRe symIm 141 = 1 := by rw [sym_mag]; norm_num [symRe]
  have s1 : scanStep symRe symIm (0, 0) 139 = (1, 139) := by
    rw [scanStep, h139]; norm_num
  have s2 : scanStep symRe symIm (1, 139) 140 = (10, 140) := by
    rw [scanStep, h140]; norm_num
  have s3 : scanStep symRe symIm (10, 140) 141 = (10, 140) := by
    rw [scanStep, h141]; norm_num
  rw [List.foldl_cons, s1, List.foldl_cons, s2, List.foldl_cons, s3,
    List.foldl_nil]
  apply scan_skip
  intro i hi
  rw [List.mem_range'] at hi
  obtain ⟨k, hk, rfl⟩ := hi
  rw [sym_mag_other _ (by omega) (by omega) (by omega)]
  norm_num

/-! ## AdaptivePeakFilter: `update_short_peak_filter` / `update_long_peak_filter`

The state mirrors the globals `*_peak_buf`, `*_buf_count`, `*_buf_idx`,
`*_ema`.  Parameters `K`, `alpha`, `T` stand for the per-window constants
`*_MEDIAN_N`, `EMA_ALPHA_*`, `MAG_THRESHOLD_*`. -/

structure FilterState (α : Type) where
  buf : List α
  count : ℕ
  idx : ℕ
  ema : α
  deriving DecidableEq

variable {α : Type} [LinearOrderedField α]

/-- Embedding of `median_of_copy` from `src/Final_code.ino`: copy the first
`n` filled entries, cap `n` at the temp-array size 21, insertion-sort them
ascending and return the middle element `tmp[n/2]`. -/
def median_of_copy (buffer : List α) (n : ℕ) : α :=
  let m := min n 21
  ((buffer.take m).insertionSort (· ≤ ·)).getD (m / 2) 0

/-- Common body of `update_short_peak_filter` and `update_long_peak_filter`
from `src/Final_code.ino` (the two functions are textually identical up to
the constants `K = *_MEDIAN_N`, `alpha = EMA_ALPHA_*`, `T = MAG_THRESHOLD_*`
and which globals they touch).  Returns the new state together with the
returned smoothed value. -/
def update_peak_filter (K : ℕ) (alpha T : α) (s : FilterState α)
    (newVal mag : α) : FilterState α × α :=
  if mag < T then
    let e := s.ema * (1 - alpha) + s.ema * alpha
    ({ s with ema := e }, e)
  else
    let buf := s.buf.set s.idx newVal
    let idx := (s.idx + 1) % K
    let count := if s.count < K then s.count + 1 else s.count
    let med := median_of_copy buf count
    let e0 := if count = 1 ∧ s.ema = 0 then med else s.ema
    let e := alpha * med + (1 - alpha) * e0
    (⟨buf, count, idx, e⟩, e)

/-- Embedding of `update_short_peak_filter`: `SHORT_MEDIAN_N = 5`,
`EMA_ALPHA_SHORT = 0.4`, `MAG_THRESHOLD_SHORT = 1.0`. -/
def update_short_peak_filter (s : FilterState α) (newVal mag : α) :
    FilterState α × α :=
  update_peak_filter 5 0.4 1 s newVal mag

/-- Embedding of `update_long_peak_filter`: `LONG_MEDIAN_N = 3`,
`EMA_ALPHA_LONG = 0.25`, `MAG_THRESHOLD_LONG = 1.0`. -/
def update_long_peak_filter (s : FilterState α) (newVal mag : α) :
    FilterState α × α :=
  update_peak_filter 3 0.25 1 s newVal mag

/-- Zero-initialized filter state (the C globals are zero-initialized
static variables); `K` is the buffer length. -/
def initFilterState (K : ℕ) : FilterState α :=
  ⟨List.replicate K 0, 0, 0, 0⟩

/-- Iterate `update_peak_filter` over a list of `(newVal, mag)` samples,
collecting the value returned by each call. -/
def acceptMany (K : ℕ) (alpha T : α) :
    FilterState α → List (α × α) → FilterState α × List α
  | s, [] => (s, [])
  | s, p :: ps =>
    let r := update_peak_filter K alpha T s p.1 p.2
    let t := acceptMany K alpha T r.1 ps
    (t.1, r.2 :: t.2)

theorem update_peak_filter_gated (K : ℕ) (alpha T : α) (s : FilterState α)
    (newVal mag : α) (hmag : mag < T) :
    update_peak_filter K alpha T s newVal mag = (s, s.ema) := by
  have he : s.ema * (1 - alpha) + s.ema * alpha = s.ema := by ring
  rw [update_peak_filter, if_pos hmag]
  simp only [he]

theorem acceptMany_gated (K : ℕ) (alpha T : α) (s : FilterState α)
    (l : List (α × α)) (h : ∀ p ∈ l, p.2 < T) :
    acceptMany K alpha T s l = (s, List.replicate l.length s.ema) := by
  induction l with
  | nil => rfl
  | cons p ps ih =>
    rw [acceptMany]
    rw [update_peak_filter_gated K alpha T s p.1 p.2 (h p (List.mem_cons_self _ _))]
    rw [ih fun q hq => h q (List.mem_cons_of_mem _ hq)]
    simp [List.replicate_succ]

theorem median_replicate (m r : ℕ) (v z : α) (hm : 1 ≤ m) (hcap : m ≤ 21) :
    median_of_copy (List.replicate m v ++ List.replicate r z) m = v := by
  rw [median_of_copy]
  have hmin : min m 21 = m := Nat.min_eq_left hcap
  simp only [hmin]
  have htake : (List.replicate m v ++ List.replicate r z).take m =
      List.replicate m v := List.take_left' (by simp)
  rw [htake]
  have hsort : (List.replicate m v).insertionSort (· ≤ ·) =
      List.replicate m v :=
    List.perm_replicate.mp (List.perm_insertionSort _ _)
  rw [hsort]
  have hlt : m / 2 < m := Nat.div_lt_self (by omega) (by omega)
  simp [List.getD_eq_getElem?_getD, List.getElem?_replicate, hlt]

theorem set_replicate_append {β : Type} (j r : ℕ) (v z : β) :
    (List.replicate j v ++ List.replicate (r + 1) z).set j v =
      List.replicate (j + 1) v ++ List.replicate r z := by
  induction j with
  | zero => simp [List.replicate_succ]
  | succ i ih =>
    rw [List.replicate_succ v i, List.cons_append, List.set_cons_succ, ih,
      ← List.cons_append, ← List.replicate_succ]

theorem c8_step (v mag : α) (hmag : ¬ mag < 1) (j : ℕ) (hj : j < 5) :
    update_short_peak_filter
      (⟨List.replicate j v ++ List.replicate (5 - j) 0, j, j % 5,
        if j = 0 then 0 else v⟩ : FilterState α) v mag
    = (⟨List.replicate (j + 1) v ++ List.replicate (5 - (j + 1)) 0, j + 1,
        (j + 1) % 5, v⟩, v) := by
  rw [update_short_peak_filter, update_peak_filter, if_neg hmag]
  have hmod : j % 5 = j := Nat.mod_eq_of_lt hj
  have hsplit : (5 : ℕ) - j = (5 - (j + 1)) + 1 := by omega
  have hset : (List.replicate j v ++ List.replicate (5 - j) (0 : α)).set j v =
      List.replicate (j + 1) v ++ List.replicate (5 - (j + 1)) 0 := by
    rw [hsplit, set_replicate_append]
  have hcnt : (if j < 5 then j + 1 else j) = j + 1 := if_pos hj
  have hmed : median_of_copy
      (List.replicate (j + 1) v ++ List.replicate (5 - (j + 1)) (0 : α)) (j + 1) = v :=
    median_replicate _ _ _ _ (by omega) (by omega)
  have hee : (0.4 : α) * v + (1 - 0.4) *
      (if j + 1 = 1 ∧ (if j = 0 then (0 : α) else v) = 0 then v
        else if j = 0 then (0 : α) else v) = v := by
    rcases Nat.eq_zero_or_pos j with hz | hp
    · subst hz
      rw [if_pos (⟨by norm_num, by simp⟩ :
        0 + 1 = 1 ∧ (if (0 : ℕ) = 0 then (0 : α) else v) = 0)]
      ring
    · rw [if_neg (fun h => absurd h.1 (by omega)),
        if_neg (by omega : ¬ j = 0)]
      ring
  simp only [hset, hcnt, hmed, hmod, hee]

theorem c8_iter (v mag : α) (hmag : ¬ mag < 1) :
    ∀ (m j : ℕ), j + m ≤ 5 →
    acceptMany 5 0.4 1
      (⟨List.replicate j v ++ List.replicate (5 - j) 0, j, j % 5,
        if j = 0 then 0 else v⟩ : FilterState α)
      (List.replicate m (v, mag))
    = (⟨List.replicate (j + m) v ++ List.replicate (5 - (j + m)) 0, j + m,
        (j + m) % 5, if j + m = 0 then 0 else v⟩, List.replicate m v) := by
  intro m
  induction m with
  | zero => intro j hj; simp [acceptMany]
  | succ i ih =>
    intro j hj
    rw [List.replicate_succ, acceptMany]
    have hstep := c8_step v mag hmag j (by omega)
    rw [update_short_peak_filter] at hstep
    simp only [hstep]
    have := ih (j + 1) (by omega)
    rw [if_neg (by omega : ¬ j + 1 = 0)] at this
    rw [this]
    have h1 : j + 1 + i = j + (i + 1) := by omega
    rw [h1, if_neg (by omega : ¬ j + (i + 1) = 0), List.replicate_succ]

/-- State of the short-window filter after `k` identical accepted samples
of value `v`, for `1 ≤ k ≤ 5`: the first `k` buffer slots hold `v`,
fill-count is `k`, write index is `k mod 5`, and the EMA equals `v`. -/
def c8State (k : ℕ) (v : α) : FilterState α :=
  ⟨List.replicate k v ++ List.replicate (5 - k) 0, k, k % 5, v⟩

/-! ## HistoryVotingDetector: `countSetBits` and `detectFrequency` -/

/-- Body of the `while (n)` loop of `countSetBits`, made structural with a
fuel argument (each iteration halves `n`, so `fuel` iterations suffice for
any `n < 2 ^ fuel`). -/
def countSetBitsAux : ℕ → ℕ → ℕ
  | 0, _ => 0
  | fuel + 1, n => if n = 0 then 0 else n % 2 + countSetBitsAux fuel (n / 2)

/-- Embedding of `countSetBits` from `src/Final_code.ino`.  The C argument
is a 32-bit `unsigned int`, so 32 halvings always drain the loop; the fuel
`32` is therefore exact for every representable argument. -/
def countSetBits (n : ℕ) : ℕ := countSetBitsAux 32 n

/-- Popcount as the spec words it: the number of set bits among the `w`
positions of the register (glossary: "count of set bits in a binary
register").  Used to cross-check `countSetBits`. -/
def specPopcount (w n : ℕ) : ℕ :=
  ∑ i ∈ Finset.range w, if n.testBit i then 1 else 0

theorem countSetBitsAux_eq_specPopcount :
    ∀ (f n : ℕ), n < 2 ^ f → countSetBitsAux f n = specPopcount f n := by
  intro f
  induction f with
  | zero =>
    intro n hn
    interval_cases n
    rfl
  | succ g ih =>
    intro n hn
    rw [countSetBitsAux]
    by_cases h0 : n = 0
    · subst h0
      simp [specPopcount, Nat.zero_testBit]
    · rw [if_neg h0]
      have hdiv : n / 2 < 2 ^ g := by
        rw [pow_succ] at hn
        omega
      rw [ih (n / 2) hdiv, specPopcount, specPopcount, Finset.sum_range_succ']
      have hcongr : ∀ i ∈ Finset.range g,
          (if n.testBit (i + 1) then (1 : ℕ) else 0) =
          if (n / 2).testBit i then 1 else 0 := by
        intro i _
        rw [Nat.testBit_succ]
      rw [Finset.sum_congr rfl hcongr, Nat.testBit_zero]
      rcases Nat.mod_two_eq_zero_or_one n with h2 | h2 <;> rw [h2] <;> simp [Nat.add_comm]

theorem countSetBits_eq_specPopcount (n : ℕ) (hn : n < 2 ^ 32) :
    countSetBits n = specPopcount 32 n :=
  countSetBitsAux_eq_specPopcount 32 n hn

/-- Embedding of `detectFrequency` from `src/Final_code.ino`.  The
`unsigned int *mem` in-out register is the first component of the result
(its pre-call value is the `mem` argument); `*mem <<= 1` wraps modulo
`2^32` as the C `unsigned int` does. -/
def detectFrequency (mem minMatch : ℕ) (peak_freq target_freq tol : α)
    (history_mask : ℕ) : ℕ × Bool :=
  let m1 := (mem <<< 1) % 2 ^ 32
  let m2 := m1 &&& history_mask
  let m3 := if |peak_freq - target_freq| ≤ tol then m2 ||| 1 else m2
  (m3, decide (minMatch ≤ countSetBits m3))

/-- Iterate `detectFrequency` over a stream of smoothed frequencies with a
fixed configuration, collecting each call's returned flag. -/
def detectManyFlags (mem minMatch : ℕ) (target tol : α) (mask : ℕ) :
    List α → List Bool
  | [] => []
  | f :: fs =>
    let r := detectFrequency mem minMatch f target tol mask
    r.2 :: detectManyFlags r.1 minMatch target tol mask fs

theorem detectFrequency_register (mem minMatch : ℕ) (f F ε : α)
    (mask : ℕ) (hmask : mask < 2 ^ 32) :
    (detectFrequency mem minMatch f F ε mask).1 =
      (if |f - F| ≤ ε then ((2 * mem) &&& mask) ||| 1
        else (2 * mem) &&& mask) := by
  have hshift : mem <<< 1 = 2 * mem := by
    rw [Nat.shiftLeft_eq, pow_one, Nat.mul_comm]
  have hmod : ((2 * mem) % 2 ^ 32) &&& mask = (2 * mem) &&& mask := by
    rw [← Nat.and_pow_two_sub_one_eq_mod, Nat.land_assoc]
    congr 1
    rw [Nat.land_comm]
    exact Nat.and_pow_two_sub_one_of_lt_two_pow hmask
  rw [detectFrequency]
  simp only [hshift, hmod]

theorem detectFrequency_register_lt (mem minMatch : ℕ) (f F ε : α)
    (mask : ℕ) (hmask : mask < 2 ^ 32) :
    (detectFrequency mem minMatch f F ε mask).1 < 2 ^ 32 := by
  rw [detectFrequency]
  have h2 : ((mem <<< 1) % 2 ^ 32) &&& mask < 2 ^ 32 :=
    lt_of_le_of_lt Nat.and_le_right hmask
  by_cases hc : |f - F| ≤ ε
  · simp only [if_pos hc]
    exact Nat.or_lt_two_pow h2 (by norm_num)
  · simp only [if_neg hc]
    exact h2

theorem detectFrequency_fired (mem minMatch : ℕ) (f F ε : α)
    (mask : ℕ) (hmask : mask < 2 ^ 32) :
    ((detectFrequency mem minMatch f F ε mask).2 = true ↔
      minMatch ≤ specPopcount 32 (detectFrequency mem minMatch f F ε mask).1) := by
  have hlt := detectFrequency_register_lt mem minMatch f F ε mask hmask
  have hcnt := countSetBits_eq_specPopcount _ hlt
  rw [detectFrequency] at hcnt ⊢
  simp only [decide_eq_true_eq]
  rw [← hcnt]

/-- Voting-boundary scenario input: 14 matching observations (`3100` Hz,
inside the `±11` Hz tolerance) interleaved with non-matching ones (`0` Hz),
followed by a 15th match, all within the last 32 slots. -/
def seq29 : List ℚ :=
  [3100, 0, 3100, 0, 3100, 0, 3100, 0, 3100, 0, 3100, 0, 3100, 0,
   3100, 0, 3100, 0, 3100, 0, 3100, 0, 3100, 0, 3100, 0, 3100, 0, 3100]

/-! ## WindowAccumulator (long path) and the producer cycle `loop2` -/

/-- Embedding of the long-window accumulation loop of `loop2`:
`for (i) { if (long_idx < LONG_SAMPLES) long_buffer[long_idx++] = samples[i]; }`.
The pair is `(long_idx, long_buffer)`. -/
def accumulate (p : ℕ × List ℤ) (samples : List ℤ) : ℕ × List ℤ :=
  samples.foldl
    (fun q x => if q.1 < LONG_SAMPLES then (q.1 + 1, q.2.set q.1 x) else q) p

/-- The same accumulation loop with the capacity guard removed: every
incoming sample is written unconditionally.  Used to state that the
guard (the per-sample drop branch) is unreachable in the producer loop. -/
def accumulateNoDrop (p : ℕ × List ℤ) (samples : List ℤ) : ℕ × List ℤ :=
  samples.foldl (fun q x => (q.1 + 1, q.2.set q.1 x)) p

theorem accumulate_full (p : ℕ × List ℤ) (samples : List ℤ)
    (h : LONG_SAMPLES ≤ p.1) : accumulate p samples = p := by
  induction samples generalizing p with
  | nil => rfl
  | cons x xs ih =>
    rw [accumulate, List.foldl_cons, if_neg (by omega)]
    exact ih p h

theorem accumulate_eq_noDrop (samples : List ℤ) :
    ∀ (p : ℕ × List ℤ), p.1 + samples.length ≤ LONG_SAMPLES →
      accumulate p samples = accumulateNoDrop p samples := by
  induction samples with
  | nil => intro p _; rfl
  | cons x xs ih =>
    intro p hp
    rw [accumulate, accumulateNoDrop, List.foldl_cons, List.foldl_cons,
      if_pos (by simp at hp; omega)]
    exact ih (p.1 + 1, p.2.set p.1 x) (by simp at hp ⊢; omega)

theorem accumulateNoDrop_fst (samples : List ℤ) :
    ∀ (p : ℕ × List ℤ), (accumulateNoDrop p samples).1 = p.1 + samples.length := by
  induction samples with
  | nil => intro p; simp [accumulateNoDrop]
  | cons x xs ih =>
    intro p
    rw [accumulateNoDrop, List.foldl_cons, ← accumulateNoDrop]
    rw [ih (p.1 + 1, p.2.set p.1 x)]
    simp
    omega

theorem accumulate_fst (p : ℕ × List ℤ) (samples : List ℤ)
    (h : p.1 + samples.length ≤ LONG_SAMPLES) :
    (accumulate p samples).1 = p.1 + samples.length := by
  rw [accumulate_eq_noDrop samples p h, accumulateNoDrop_fst]

theorem accumulate_fst_le (samples : List ℤ) :
    ∀ (p : ℕ × List ℤ), p.1 ≤ LONG_SAMPLES →
      (accumulate p samples).1 ≤ LONG_SAMPLES := by
  induction samples with
  | nil => intro p hp; exact hp
  | cons x xs ih =>
    intro p hp
    rw [accumulate, List.foldl_cons, ← accumulate]
    by_cases hlt : p.1 < LONG_SAMPLES
    · rw [if_pos hlt]
      exact ih _ (by simp; omega)
    · rw [if_neg hlt]
      exact ih _ hp

/-! ## MetricsSnapshot and the single-slot channel -/

/-- Embedding of the `Metrics` struct shared between the two cores. -/
structure Metrics where
  peakHzShort : ℝ
  peakHzLong : ℝ
  fireAlarmDetected : Bool
  fireShortDetected : Bool
  fireLongDetected : Bool

/-- Modelled from the spec: the single-slot overwrite channel.  The code
realises it with the FreeRTOS primitives `xQueueOverwrite` on a queue of
depth 1, whose implementation is external to this repository; per the spec
(§4.7) `publish` always replaces the slot content. -/
def publish (_slot : Option Metrics) (m : Metrics) : Option Metrics :=
  some m

/-- Modelled from the spec: the peek side of the single-slot channel.  The
code realises it with the FreeRTOS primitive `xQueuePeek`, external to this
repository; per the spec (§4.7) `peekLatest` returns the most recent
snapshot without removing it, or "no data" when nothing was published. -/
def peekLatest (slot : Option Metrics) : Option Metrics :=
  slot

/-! ## ProducerOrchestrator: one cycle of `loop2`

The spectral transform (`arduinoFFT`'s `windowing` + `compute`) is an
external collaborator; a cycle is parameterized by the two transform
functions `fftS`/`fftL` (from the float conversion of a block to the
`(real, imag)` frame).  A failed or empty `i2s_read` is the `none` input. -/

structure ProducerState where
  long_idx : ℕ
  long_buffer : List ℤ
  shortFilter : FilterState ℝ
  longFilter : FilterState ℝ
  fireAlarm : ℕ
  fireAlarmLong : ℕ
  metrics : Metrics
  channel : Option Metrics

/-- Embedding of `integerToFloat`: `vReal[i] = (integer[i] >> 16) / 10.0`
(arithmetic shift of a 32-bit sample = floor division by `2^16`);
`vImag[i] = 0` is implicit in the frame construction of the transforms. -/
noncomputable def integerToFloat (samples : List ℤ) : ℕ → ℝ :=
  fun i => ((Int.fdiv (samples.getD i 0) 65536 : ℤ) : ℝ) / 10

/-- One full iteration of the `while (1)` body of `loop2` (after the
pacing wait), from the `i2s_read` result to the `xQueueOverwrite`.
Returns the new state and whether the long-window branch ran. -/
noncomputable def cycle (fftS fftL : (ℕ → ℝ) → (ℕ → ℝ) × (ℕ → ℝ))
    (s : ProducerState) (input : Option (List ℤ)) : ProducerState × Bool :=
  match input with
  | none => (s, false)
  | some samples =>
    let acc := accumulate (s.long_idx, s.long_buffer) samples
    let frame := fftS (integerToFloat samples)
    let pk := majorPeakParabolaDbWithMag frame.1 frame.2 SAMPLES SAMPLE_RATE
    let sf := update_short_peak_filter s.shortFilter pk.1 pk.2
    let det := detectFrequency s.fireAlarm 15 sf.2 3100 11 0xFFFFFFFF
    let m1 : Metrics := { s.metrics with
      peakHzShort := sf.2, fireShortDetected := det.2 }
    if LONG_SAMPLES ≤ acc.1 then
      let lframe := fftL (integerToFloat acc.2)
      let lpk := majorPeakParabolaDbWithMag lframe.1 lframe.2 LONG_SAMPLES SAMPLE_RATE
      let lf := update_long_peak_filter s.longFilter lpk.1 lpk.2
      let ldet := detectFrequency s.fireAlarmLong 8 lf.2 3100 3 0xFFFF
      let m2 : Metrics := { m1 with
        peakHzLong := lf.2, fireLongDetected := ldet.2 }
      let m3 : Metrics := { m2 with
        fireAlarmDetected := m2.fireShortDetected || m2.fireLongDetected }
      (⟨0, acc.2, sf.1, lf.1, det.1, ldet.1, m3, publish s.channel m3⟩, true)
    else
      let m3 : Metrics := { m1 with
        fireAlarmDetected := m1.fireShortDetected || m1.fireLongDetected }
      (⟨acc.1, acc.2, sf.1, s.longFilter, det.1, s.fireAlarmLong, m3,
        publish s.channel m3⟩, false)

/-- Iterate producer cycles over a list of read results, collecting for
each cycle whether the long-window branch ran. -/
noncomputable def runCycles (fftS fftL : (ℕ → ℝ) → (ℕ → ℝ) × (ℕ → ℝ)) :
    ProducerState → List (Option (List ℤ)) → ProducerState × List Bool
  | s, [] => (s, [])
  | s, input :: rest =>
    let r := cycle fftS fftL s input
    let t := runCycles fftS fftL r.1 rest
    (t.1, r.2 :: t.2)

/-- The initial producer state: the C globals are zero-initialized, the
local `metrics` starts as `{0, 0, false, false, false}`, and nothing has
been published yet. -/
noncomputable def initialProducerState : ProducerState :=
  ⟨0, List.replicate LONG_SAMPLES 0, initFilterState 5, initFilterState 3,
    0, 0, ⟨0, 0, false, false, false⟩, none⟩

theorem cycle_none (fftS fftL : (ℕ → ℝ) → (ℕ → ℝ) × (ℕ → ℝ))
    (s : ProducerState) : cycle fftS fftL s none = (s, false) :=
  rfl

theorem cycle_long_idx (fftS fftL : (ℕ → ℝ) → (ℕ → ℝ) × (ℕ → ℝ))
    (s : ProducerState) (samples : List ℤ) :
    (cycle fftS fftL s (some samples)).1.long_idx =
      if LONG_SAMPLES ≤ (accumulate (s.long_idx, s.long_buffer) samples).1
      then 0 else (accumulate (s.long_idx, s.long_buffer) samples).1 := by
  rw [cycle]
  by_cases h : LONG_SAMPLES ≤ (accumulate (s.long_idx, s.long_buffer) samples).1
  · rw [if_pos h, if_pos h]
  · rw [if_neg h, if_neg h]

theorem cycle_ran_long (fftS fftL : (ℕ → ℝ) → (ℕ → ℝ) × (ℕ → ℝ))
    (s : ProducerState) (samples : List ℤ) :
    (cycle fftS fftL s (some samples)).2 =
      decide (LONG_SAMPLES ≤ (accumulate (s.long_idx, s.long_buffer) samples).1) := by
  rw [cycle]
  by_cases h : LONG_SAMPLES ≤ (accumulate (s.long_idx, s.long_buffer) samples).1
  · rw [if_pos h, decide_eq_true h]
  · rw [if_neg h, decide_eq_false h]

theorem cycle_publishes (fftS fftL : (ℕ → ℝ) → (ℕ → ℝ) × (ℕ → ℝ))
    (s : ProducerState) (samples : List ℤ) :
    (cycle fftS fftL s (some samples)).1.channel =
      some (cycle fftS fftL s (some samples)).1.metrics := by
  rw [cycle]
  by_cases h : LONG_SAMPLES ≤ (accumulate (s.long_idx, s.long_buffer) samples).1
  · rw [if_pos h]
    rfl
  · rw [if_neg h]
    rfl

theorem cycle_fusion (fftS fftL : (ℕ → ℝ) → (ℕ → ℝ) × (ℕ → ℝ))
    (s : ProducerState) (samples : List ℤ) :
    (cycle fftS fftL s (some samples)).1.metrics.fireAlarmDetected =
      ((cycle fftS fftL s (some samples)).1.metrics.fireShortDetected ||
        (cycle fftS fftL s (some samples)).1.metrics.fireLongDetected) := by
  rw [cycle]
  by_cases h : LONG_SAMPLES ≤ (accumulate (s.long_idx, s.long_buffer) samples).1
  · rw [if_pos h]
  · rw [if_neg h]

theorem cycle_carry_long (fftS fftL : (ℕ → ℝ) → (ℕ → ℝ) × (ℕ → ℝ))
    (s : ProducerState) (samples : List ℤ)
    (hlt : (accumulate (s.long_idx, s.long_buffer) samples).1 < LONG_SAMPLES) :
    (cycle fftS fftL s (some samples)).1.metrics.fireLongDetected =
      s.metrics.fireLongDetected ∧
    (cycle fftS fftL s (some samples)).1.metrics.peakHzLong =
      s.metrics.peakHzLong := by
  rw [cycle, if_neg (by omega)]
  exact ⟨rfl, rfl⟩

theorem cycle_step_not_full (fftS fftL : (ℕ → ℝ) → (ℕ → ℝ) × (ℕ → ℝ))
    (s : ProducerState) (samples : List ℤ)
    (hlen : samples.length = BLOCK_SIZE)
    (hlt : s.long_idx + BLOCK_SIZE < LONG_SAMPLES) :
    (cycle fftS fftL s (some samples)).1.long_idx = s.long_idx + BLOCK_SIZE ∧
    (cycle fftS fftL s (some samples)).2 = false := by
  have hacc : (accumulate (s.long_idx, s.long_buffer) samples).1 =
      s.long_idx + BLOCK_SIZE := by
    rw [accumulate_fst _ _ (by rw [hlen]; omega), hlen]
  constructor
  · rw [cycle_long_idx, hacc, if_neg (by omega)]
  · rw [cycle_ran_long, hacc, decide_eq_false (by omega)]

theorem cycle_step_full (fftS fftL : (ℕ → ℝ) → (ℕ → ℝ) × (ℕ → ℝ))
    (s : ProducerState) (samples : List ℤ)
    (hlen : samples.length = BLOCK_SIZE)
    (heq : s.long_idx + BLOCK_SIZE = LONG_SAMPLES) :
    (cycle fftS fftL s (some samples)).1.long_idx = 0 ∧
    (cycle fftS fftL s (some samples)).2 = true := by
  have hacc : (accumulate (s.long_idx, s.long_buffer) samples).1 =
      s.long_idx + BLOCK_SIZE := by
    rw [accumulate_fst _ _ (by rw [hlen]; omega), hlen]
  constructor
  · rw [cycle_long_idx, hacc, if_pos (by omega)]
  · rw [cycle_ran_long, hacc, decide_eq_true (by omega : LONG_SAMPLES ≤ s.long_idx + BLOCK_SIZE)]

theorem runCycles_all_none (fftS fftL : (ℕ → ℝ) → (ℕ → ℝ) × (ℕ → ℝ)) :
    ∀ (inputs : List (Option (List ℤ))) (s : ProducerState),
      (∀ i ∈ inputs, i = none) →
      runCycles fftS fftL s inputs = (s, List.replicate inputs.length false) := by
  intro inputs
  induction inputs with
  | nil => intro s _; rfl
  | cons i rest ih =>
    intro s h
    rw [runCycles]
    rw [h i (List.mem_cons_self _ _), cycle_none]
    rw [ih s fun j hj => h j (List.mem_cons_of_mem _ hj)]
    simp [List.replicate_succ]

/-! ## Claim theorems -/

/-- C1 counterexample: a frame whose maximum-magnitude bin over the scan
range lies at the lowest permitted scan index 1 (with positive, unequal
neighbors) does NOT get the bin-center frequency back: the code's guard
`IndexOfMaxY < 1 || IndexOfMaxY >= half - 1` does not fire at index 1, so
parabolic interpolation is applied (using the DC bin as left neighbor) and
the returned frequency is `(1 + 1/6)·fs/N ≠ 1·fs/N`. -/
theorem claim1_counterexample :
    (scanMax cexRe cexIm 4).2 = 1 ∧
    (majorPeakParabolaDbWithMag cexRe cexIm 8 8).1 ≠ (1 : ℝ) * 8 / 8 := by
  constructor
  · rw [cex_scan]
  · rw [cex_eval]
    norm_num

/-- C1 (amended): the no-interpolation early return of
`majorPeakParabolaDbWithMag` fires only when the scan found no bin of
positive magnitude — the index is then still 0 and the function returns
frequency 0 with the scanned maximum magnitude; any actual maximum
(including one at scan boundary 1 or N/2-2) has index in `1..N/2-2`, where
the guard does not fire and interpolation is attempted.  The second
conjunct exhibits interpolation being applied at scan-boundary index 1. -/
theorem claim1_amended_guard :
    (∀ (re im : ℕ → ℝ) (n : ℕ) (fs : ℝ),
      ((scanMax re im (n / 2)).2 = 0 ∨
        (1 ≤ (scanMax re im (n / 2)).2 ∧
          (scanMax re im (n / 2)).2 ≤ n / 2 - 2)) ∧
      ((scanMax re im (n / 2)).2 = 0 →
        majorPeakParabolaDbWithMag re im n fs = (0, (scanMax re im (n / 2)).1))) ∧
    ((scanMax cexRe cexIm 4).2 = 1 ∧
      (majorPeakParabolaDbWithMag cexRe cexIm 8 8).1 = 7 / 6) := by
  refine ⟨fun re im n fs => majorPeak_guard_only_at_zero re im n fs, ?_, ?_⟩
  · rw [cex_scan]
  · rw [cex_eval]

/-- C1 (amended) witness: on the all-zero frame the scan index stays 0 and
the uninterpolated early return fires. -/
theorem claim1_amended_guard_witness :
    (scanMax zeroFrame zeroFrame 4).2 = 0 ∧
    majorPeakParabolaDbWithMag zeroFrame zeroFrame 8 8 =
      (0, (scanMax zeroFrame zeroFrame 4).1) := by
  constructor
  · rw [zeroFrame_scan]
  · exact (claim1_amended_guard.1 zeroFrame zeroFrame 8 8).2 (by rw [zeroFrame_scan])

/-- C9: for any frame whose scanned maximum-magnitude bin is interior with
equal positive left and right neighbor magnitudes, the interpolation delta
is 0, the returned frequency is exactly `index·sampleRate/N`, and the
returned magnitude is the center bin's raw magnitude. -/
theorem claim9_symmetric_zero_delta (re im : ℕ → ℝ) (n : ℕ) (fs : ℝ)
    (h1 : 1 ≤ (scanMax re im (n / 2)).2)
    (h2 : (scanMax re im (n / 2)).2 < n / 2 - 1)
    (heq : magAt re im ((scanMax re im (n / 2)).2 - 1) =
      magAt re im ((scanMax re im (n / 2)).2 + 1))
    (hpos : 0 < magAt re im ((scanMax re im (n / 2)).2 - 1)) :
    majorPeakParabolaDbWithMag re im n fs =
      (((scanMax re im (n / 2)).2 : ℝ) * fs / (n : ℝ),
        magAt re im (scanMax re im (n / 2)).2) :=
  majorPeak_symmetric re im n fs h1 h2 heq hpos

/-- C9 witness: N = 1024, sampleRate = 22627, peak 10 at bin 140 with equal
neighbor magnitudes 1 at bins 139 and 141: the returned frequency is exactly
`140·22627/1024` and the returned magnitude is the center magnitude 10. -/
theorem claim9_symmetric_zero_delta_witness :
    majorPeakParabolaDbWithMag symRe symIm 1024 22627 =
      ((140 : ℝ) * 22627 / 1024, 10) := by
  have hscan : scanMax symRe symIm (1024 / 2) = (10, 140) := sym_scan
  have h := claim9_symmetric_zero_delta symRe symIm 1024 22627
    (by rw [hscan]; norm_num)
    (by rw [hscan]; decide)
    (by rw [hscan]; rw [sym_mag, sym_mag]; norm_num [symRe])
    (by rw [hscan]; rw [sym_mag]; norm_num [symRe])
  rw [hscan] at h
  rw [h, sym_mag]
  norm_num [symRe]

/-- C5: if the peripheral read fails or returns zero bytes (`none` input),
the producer skips the rest of the cycle: both filters, both history
registers, the long window buffer and index, the local metrics and the
published snapshot are all unchanged. -/
theorem claim5_transient_io_skip (fftS fftL : (ℕ → ℝ) → (ℕ → ℝ) × (ℕ → ℝ))
    (s : ProducerState) :
    cycle fftS fftL s none = (s, false) ∧
    (cycle fftS fftL s none).1.shortFilter = s.shortFilter ∧
    (cycle fftS fftL s none).1.longFilter = s.longFilter ∧
    (cycle fftS fftL s none).1.fireAlarm = s.fireAlarm ∧
    (cycle fftS fftL s none).1.fireAlarmLong = s.fireAlarmLong ∧
    (cycle fftS fftL s none).1.long_idx = s.long_idx ∧
    (cycle fftS fftL s none).1.long_buffer = s.long_buffer ∧
    (cycle fftS fftL s none).1.metrics = s.metrics ∧
    (cycle fftS fftL s none).1.channel = s.channel :=
  ⟨rfl, rfl, rfl, rfl, rfl, rfl, rfl, rfl, rfl⟩

/-- C7: the channel has single-slot overwrite semantics: `publish` always
replaces the slot content, `peekLatest` returns the most recent snapshot
without removing it (repeated reads observe the same value), the producer
publishes through `publish` every successful cycle, and before the first
successful cycle (e.g. when every read failed) `peekLatest` returns no
data. -/
theorem claim7_single_slot_channel :
    (∀ (slot : Option Metrics) (m : Metrics), publish slot m = some m) ∧
    (∀ (slot : Option Metrics) (m : Metrics), peekLatest (publish slot m) = some m) ∧
    (∀ (slot : Option Metrics), peekLatest slot = peekLatest slot) ∧
    peekLatest initialProducerState.channel = none ∧
    (∀ (fftS fftL : (ℕ → ℝ) → (ℕ → ℝ) × (ℕ → ℝ)) (t : ProducerState) (u : List ℤ),
      (cycle fftS fftL t (some u)).1.channel =
        publish t.channel (cycle fftS fftL t (some u)).1.metrics) ∧
    (∀ (fftS fftL : (ℕ → ℝ) → (ℕ → ℝ) × (ℕ → ℝ))
      (inputs : List (Option (List ℤ))),
      (∀ i ∈ inputs, i = none) →
      (runCycles fftS fftL initialProducerState inputs).1.channel = none) := by
  refine ⟨fun _ _ => rfl, fun _ _ => rfl, fun _ => rfl, rfl, ?_, ?_⟩
  · intro fftS fftL t u
    rw [cycle_publishes]
    rfl
  · intro fftS fftL inputs h
    rw [runCycles_all_none fftS fftL inputs initialProducerState h]
    rfl

/-- C7 witness: two consecutive failed-read cycles leave the channel empty. -/
theorem claim7_single_slot_channel_witness :
    (runCycles (fun _ => (zeroFrame, zeroFrame)) (fun _ => (zeroFrame, zeroFrame))
      initialProducerState [none, none]).1.channel = none :=
  claim7_single_slot_channel.2.2.2.2.2 _ _ [none, none] (by simp)

/-- C2: `detectFrequency` shifts the history register left by one, masks it
to the configured window, sets the least-significant bit iff the smoothed
frequency is within tolerance of the target, and fires iff the popcount of
the register reaches the minimum-match count; with the short-window
configuration (W = 32, M = 15), 14 matching observations interleaved with
non-matching ones inside the last 32 slots leave `fired = false` at every
call and a 15th match within the window yields `fired = true`. -/
theorem claim2_history_voting :
    (∀ (mem minMatch : ℕ) (f F ε : ℚ) (mask : ℕ), mask < 2 ^ 32 →
      (detectFrequency mem minMatch f F ε mask).1 =
        (if |f - F| ≤ ε then ((2 * mem) &&& mask) ||| 1
          else (2 * mem) &&& mask) ∧
      ((detectFrequency mem minMatch f F ε mask).2 = true ↔
        minMatch ≤ specPopcount 32 (detectFrequency mem minMatch f F ε mask).1)) ∧
    detectManyFlags 0 15 (3100 : ℚ) 11 0xFFFFFFFF seq29 =
      List.replicate 28 false ++ [true] := by
  constructor
  · intro mem minMatch f F ε mask hmask
    exact ⟨detectFrequency_register mem minMatch f F ε mask hmask,
      detectFrequency_fired mem minMatch f F ε mask hmask⟩
  · have hT : (|(3100 : ℚ) - 3100| ≤ 11) = True := by norm_num
    have hF : (|(0 : ℚ) - 3100| ≤ 11) = False := by
      simp only [eq_iff_iff, iff_false]
      norm_num
    simp only [seq29, detectManyFlags, detectFrequency, hT, hF, if_true, if_false]
    decide

/-- C2 witness: one concrete call of the short-window configuration, with
the register-update equation and the popcount characterisation of the
returned flag instantiated at `mem = 5`. -/
theorem claim2_history_voting_witness :
    (detectFrequency 5 15 (3100 : ℚ) 3100 11 0xFFFFFFFF).1 =
      (if |(3100 : ℚ) - 3100| ≤ 11 then ((2 * 5) &&& 0xFFFFFFFF) ||| 1
        else (2 * 5) &&& 0xFFFFFFFF) ∧
    ((detectFrequency 5 15 (3100 : ℚ) 3100 11 0xFFFFFFFF).2 = true ↔
      15 ≤ specPopcount 32 (detectFrequency 5 15 (3100 : ℚ) 3100 11 0xFFFFFFFF).1) :=
  claim2_history_voting.1 5 15 3100 3100 11 0xFFFFFFFF (by norm_num)

/-- C3: a call of the filter with magnitude strictly below the gate
threshold `T` — and any run of consecutive such calls — leaves the median
buffer contents, the write index, the fill-count and the EMA unchanged,
and every such call returns the unchanged EMA value. -/
theorem claim3_gate_noop {α : Type} [LinearOrderedField α] (K : ℕ)
    (alpha T : α) (s : FilterState α) (l : List (α × α))
    (h : ∀ p ∈ l, p.2 < T) :
    acceptMany K alpha T s l = (s, List.replicate l.length s.ema) :=
  acceptMany_gated K alpha T s l h

/-- C3 witness: two consecutive below-threshold calls of the short-window
configuration (K = 5, alpha = 0.4, T = 1) on a partly-filled filter state
leave the state intact and both return the stored EMA 42. -/
theorem claim3_gate_noop_witness :
    acceptMany 5 (0.4 : ℚ) 1 ⟨[9, 8, 7, 6, 5], 5, 2, 42⟩ [(3, 1/2), (7, 0)] =
      (⟨[9, 8, 7, 6, 5], 5, 2, 42⟩, [42, 42]) :=
  claim3_gate_noop 5 0.4 1 ⟨[9, 8, 7, 6, 5], 5, 2, 42⟩ [(3, 1/2), (7, 0)]
    (by intro p hp
        simp only [List.mem_cons, List.not_mem_nil, or_false] at hp
        rcases hp with h1 | h1 <;> rw [h1] <;> norm_num)

/-- C8: starting from the zero-initialized short-window filter, `k ≤ 5`
accepted calls with one identical value `v` (magnitude at or above the
threshold) produce a state whose median is `v` and whose EMA is exactly
`v`, and every call returns `v` — the first accepted sample sets the EMA
directly to the median, and `v` is a fixed point of the EMA update. -/
theorem claim8_filter_convergence {α : Type} [LinearOrderedField α]
    (v mag : α) (hmag : 1 ≤ mag) (k : ℕ) (hk1 : 1 ≤ k) (hk5 : k ≤ 5) :
    acceptMany 5 0.4 1 (initFilterState 5) (List.replicate k (v, mag)) =
      (c8State k v, List.replicate k v) ∧
    median_of_copy (c8State k v).buf (c8State k v).count = v := by
  have h0 := c8_iter v mag (not_lt.mpr hmag) k 0 (by omega)
  rw [if_neg (by omega : ¬ 0 + k = 0)] at h0
  constructor
  · rw [show (initFilterState 5 : FilterState α) =
      ⟨List.replicate 0 v ++ List.replicate (5 - 0) 0, 0, 0 % 5,
        if 0 = 0 then 0 else v⟩ by rfl]
    rw [h0]
    rw [c8State]
    norm_num
  · rw [c8State]
    exact median_replicate k (5 - k) v 0 hk1 (by omega)

/-- C8 witness: five identical accepted samples of value 7 (magnitude 2 at
or above the threshold 1) fill the short median buffer with 7s, the median
is 7 and every returned smoothed value is 7. -/
theorem claim8_filter_convergence_witness :
    (acceptMany 5 (0.4 : ℚ) 1 (initFilterState 5) (List.replicate 5 ((7 : ℚ), 2)) =
      (c8State 5 7, List.replicate 5 7) ∧
    median_of_copy (c8State 5 (7 : ℚ)).buf (c8State 5 (7 : ℚ)).count = 7) :=
  claim8_filter_convergence 7 2 (by norm_num) 5 (by norm_num) (by norm_num)

/-- C4: the long `WindowBuffer` write index never exceeds `LONG_SAMPLES`
(samples arriving at a full buffer are dropped, not appended); feeding
exactly `LONG_SAMPLES / BLOCK_SIZE = 4` blocks from an empty index runs
the long-window pipeline exactly once — on the fourth cycle — and resets
the index to 0. -/
theorem claim4_accumulator_boundary (fftS fftL : (ℕ → ℝ) → (ℕ → ℝ) × (ℕ → ℝ))
    (s : ProducerState) (b1 b2 b3 b4 : List ℤ)
    (hl1 : b1.length = BLOCK_SIZE) (hl2 : b2.length = BLOCK_SIZE)
    (hl3 : b3.length = BLOCK_SIZE) (hl4 : b4.length = BLOCK_SIZE)
    (hidx : s.long_idx = 0) :
    (runCycles fftS fftL s [some b1, some b2, some b3, some b4]).2 =
      [false, false, false, true] ∧
    (runCycles fftS fftL s [some b1, some b2, some b3, some b4]).1.long_idx = 0 ∧
    (∀ (p : ℕ × List ℤ) (l : List ℤ), LONG_SAMPLES ≤ p.1 →
      accumulate p l = p) ∧
    (∀ (t : ProducerState) (input : Option (List ℤ)),
      t.long_idx ≤ LONG_SAMPLES →
      (cycle fftS fftL t input).1.long_idx ≤ LONG_SAMPLES) := by
  have h1 := cycle_step_not_full fftS fftL s b1 hl1 (by rw [hidx]; decide)
  have h2 := cycle_step_not_full fftS fftL (cycle fftS fftL s (some b1)).1 b2 hl2
    (by rw [h1.1, hidx]; decide)
  have h3 := cycle_step_not_full fftS fftL
    (cycle fftS fftL (cycle fftS fftL s (some b1)).1 (some b2)).1 b3 hl3
    (by rw [h2.1, h1.1, hidx]; decide)
  have h4 := cycle_step_full fftS fftL
    (cycle fftS fftL (cycle fftS fftL (cycle fftS fftL s (some b1)).1 (some b2)).1
      (some b3)).1 b4 hl4
    (by rw [h3.1, h2.1, h1.1, hidx]; decide)
  refine ⟨?_, ?_, ?_, ?_⟩
  · simp only [runCycles]
    rw [h1.2, h2.2, h3.2, h4.2]
  · simp only [runCycles]
    exact h4.1
  · intro p l hp
    exact accumulate_full p l hp
  · intro t input ht
    match input with
    | none => exact ht
    | some samples =>
      rw [cycle_long_idx]
      by_cases hfull :
          LONG_SAMPLES ≤ (accumulate (t.long_idx, t.long_buffer) samples).1
      · rw [if_pos hfull]
        exact Nat.zero_le _
      · rw [if_neg hfull]
        exact accumulate_fst_le samples (t.long_idx, t.long_buffer) ht

/-- C4 witness: four all-zero blocks fed to the initial producer state. -/
theorem claim4_accumulator_boundary_witness :
    (runCycles (fun _ => (zeroFrame, zeroFrame)) (fun _ => (zeroFrame, zeroFrame))
        initialProducerState
        [some (List.replicate 1024 0), some (List.replicate 1024 0),
          some (List.replicate 1024 0), some (List.replicate 1024 0)]).2 =
      [false, false, false, true] ∧
    (runCycles (fun _ => (zeroFrame, zeroFrame)) (fun _ => (zeroFrame, zeroFrame))
        initialProducerState
        [some (List.replicate 1024 0), some (List.replicate 1024 0),
          some (List.replicate 1024 0), some (List.replicate 1024 0)]).1.long_idx = 0 := by
  have h := claim4_accumulator_boundary (fun _ => (zeroFrame, zeroFrame))
    (fun _ => (zeroFrame, zeroFrame)) initialProducerState
    (List.replicate 1024 0) (List.replicate 1024 0)
    (List.replicate 1024 0) (List.replicate 1024 0)
    (by rw [List.length_replicate]; rfl) (by rw [List.length_replicate]; rfl)
    (by rw [List.length_replicate]; rfl) (by rw [List.length_replicate]; rfl) rfl
  exact ⟨h.1, h.2.1⟩

/-- C6: every snapshot published by a successful cycle satisfies
`fireOverall = fireShort || fireLong`, and a cycle in which the long
window did not complete carries the previous `fireLong` and `peakHzLong`
values forward into the outgoing snapshot. -/
theorem claim6_fusion_and_carry (fftS fftL : (ℕ → ℝ) → (ℕ → ℝ) × (ℕ → ℝ))
    (s : ProducerState) (samples : List ℤ)
    (hlt : (accumulate (s.long_idx, s.long_buffer) samples).1 < LONG_SAMPLES) :
    (∀ (t : ProducerState) (u : List ℤ),
      (cycle fftS fftL t (some u)).1.channel =
        some (cycle fftS fftL t (some u)).1.metrics ∧
      (cycle fftS fftL t (some u)).1.metrics.fireAlarmDetected =
        ((cycle fftS fftL t (some u)).1.metrics.fireShortDetected ||
          (cycle fftS fftL t (some u)).1.metrics.fireLongDetected)) ∧
    (cycle fftS fftL s (some samples)).1.metrics.fireLongDetected =
      s.metrics.fireLongDetected ∧
    (cycle fftS fftL s (some samples)).1.metrics.peakHzLong =
      s.metrics.peakHzLong ∧
    initialProducerState.metrics.fireLongDetected = false ∧
    initialProducerState.metrics.peakHzLong = 0 := by
  refine ⟨fun t u => ⟨cycle_publishes fftS fftL t u, cycle_fusion fftS fftL t u⟩,
    ?_, ?_, rfl, rfl⟩
  · exact (cycle_carry_long fftS fftL s samples hlt).1
  · exact (cycle_carry_long fftS fftL s samples hlt).2

/-- C6 witness: a first block fed to the initial producer state does not
complete the long window, so the published snapshot keeps the initial
`fireLong = false` and `peakHzLong = 0`. -/
theorem claim6_fusion_and_carry_witness :
    (cycle (fun _ => (zeroFrame, zeroFrame)) (fun _ => (zeroFrame, zeroFrame))
        initialProducerState (some (List.replicate 1024 0))).1.metrics.fireLongDetected =
      initialProducerState.metrics.fireLongDetected ∧
    (cycle (fun _ => (zeroFrame, zeroFrame)) (fun _ => (zeroFrame, zeroFrame))
        initialProducerState (some (List.replicate 1024 0))).1.metrics.peakHzLong =
      initialProducerState.metrics.peakHzLong := by
  have hlt : (accumulate (initialProducerState.long_idx,
      initialProducerState.long_buffer) (List.replicate 1024 0)).1 < LONG_SAMPLES := by
    rw [accumulate_fst _ _ (by rw [List.length_replicate]; decide)]
    rw [List.length_replicate]
    decide
  have h := claim6_fusion_and_carry (fun _ => (zeroFrame, zeroFrame))
    (fun _ => (zeroFrame, zeroFrame)) initialProducerState
    (List.replicate 1024 0) hlt
  exact ⟨h.2.1, h.2.2.1⟩

/-- C10: because `LONG_SAMPLES` is an exact multiple of `BLOCK_SIZE` and
the long buffer is drained in the same cycle in which it fills, the index
at the start of a cycle is always one of 0, 1024, 2048, 3072; from such an
index the per-sample drop branch is unreachable (the guarded accumulation
coincides with unconditional appending) and the index stays in the set. -/
theorem claim10_no_drop (s : ProducerState) (samples : List ℤ)
    (hlen : samples.length = BLOCK_SIZE)
    (hmem : s.long_idx ∈ ([0, 1024, 2048, 3072] : List ℕ)) :
    accumulate (s.long_idx, s.long_buffer) samples =
      accumulateNoDrop (s.long_idx, s.long_buffer) samples ∧
    (∀ (fftS fftL : (ℕ → ℝ) → (ℕ → ℝ) × (ℕ → ℝ)),
      (cycle fftS fftL s (some samples)).1.long_idx ∈
        ([0, 1024, 2048, 3072] : List ℕ)) := by
  simp only [List.mem_cons, List.not_mem_nil, or_false] at hmem
  have hle : s.long_idx + samples.length ≤ LONG_SAMPLES := by
    rw [hlen]
    rcases hmem with h | h | h | h <;> rw [h] <;> decide
  constructor
  · exact accumulate_eq_noDrop samples (s.long_idx, s.long_buffer) hle
  · intro fftS fftL
    rw [cycle_long_idx, accumulate_fst _ _ hle, hlen]
    simp only [List.mem_cons, List.not_mem_nil, or_false]
    rcases hmem with h | h | h | h <;> rw [h] <;> decide

/-- C10 witness: the initial producer state (index 0) with one full block. -/
theorem claim10_no_drop_witness :
    accumulate (initialProducerState.long_idx, initialProducerState.long_buffer)
        (List.replicate 1024 0) =
      accumulateNoDrop (initialProducerState.long_idx,
        initialProducerState.long_buffer) (List.replicate 1024 0) ∧
    (cycle (fun _ => (zeroFrame, zeroFrame)) (fun _ => (zeroFrame, zeroFrame))
        initialProducerState (some (List.replicate 1024 0))).1.long_idx ∈
      ([0, 1024, 2048, 3072] : List ℕ) := by
  have h := claim10_no_drop initialProducerState (List.replicate 1024 0)
    (by rw [List.length_replicate]; rfl) (by decide)
  exact ⟨h.1, h.2 _ _⟩
